import Mathlib

/-!
Verification of the depth-measure subsystem of scikit-fda-irregular
(src/skfda/exploratory/depth.py): pointwise sample ranking, band depth,
modified band depth, the empirical-distribution step and Fraiman-Muniz depth.

Real numbers (numpy float64 values) are embedded as rationals, so all
floating-point "approximately equal" statements become exact equalities.
A functional data grid with several domain dimensions enters the depth
computations only through the flattened list of its grid points (the axis
reductions in the source range over every domain axis), so the data matrix
is embedded as a list of samples, each a list of per-grid-point values
(each value a list of image components).
-/

namespace SkfdaDepth

/-- Embedding of numpy.cumsum on a list of naturals: entry i is the sum of
the first i+1 entries. -/
def cumsum (l : List ℕ) : List ℕ :=
  (List.range l.length).map (fun i => (l.take (i+1)).sum)

/-- Embedding of the sorted distinct values returned by numpy.unique. -/
def sortedUniq (a : List ℚ) : List ℚ :=
  (a.insertionSort (· ≤ ·)).dedup

/-- Embedding of the per-distinct-value occurrence counts returned by
numpy.unique with return_counts=True. -/
def uniqCounts (a : List ℚ) : List ℕ :=
  (sortedUniq a).map (fun u => a.count u)

/-- Embedding of the inverse indices returned by numpy.unique with
return_inverse=True: the index of each input element in the sorted
distinct-value list. -/
def uniqInverse (a : List ℚ) : List ℕ :=
  a.map (fun v => (sortedUniq a).indexOf v)

/-- Embedding of scipy.stats.rankdata with method='max' on a 1-D array:
group the values, take cumulative group counts, and give each element the
cumulative count of its group (so tied elements share the largest rank of
their tie group). -/
def rankdataMax (a : List ℚ) : List ℕ :=
  (uniqInverse a).map (fun g => (cumsum (uniqCounts a)).getD g 0)

/-- The functional data grid consumed by the depth functions, with the
domain grid flattened: data_matrix is indexed by sample, then flattened
grid point, then image component.  sample_points holds the ordered
coordinates of each domain axis.  ndim_image is the co-domain dimension
recorded by the grid. -/
structure FDataGrid where
  data_matrix : List (List (List ℚ))
  sample_points : List (List ℚ)
  ndim_image : ℕ

/-- Modelled from the spec: the Grid Accessor supplies the number of
samples in the collection (FDataGrid.nsamples is not under src/). -/
def FDataGrid.nsamples (fd : FDataGrid) : ℕ := fd.data_matrix.length

/-- Modelled from the spec: the Grid Accessor supplies the number of
domain axes (FDataGrid.ndim_domain is not under src/). -/
def FDataGrid.ndim_domain (fd : FDataGrid) : ℕ := fd.sample_points.length

/-- The scalar view data_matrix[..., 0] used by the depth code once
ndim_image has been checked: component 0 of each grid-point value. -/
def FDataGrid.scalarMatrix (fd : FDataGrid) : List (List ℚ) :=
  fd.data_matrix.map (fun row => row.map (fun v => v.getD 0 0))

/-- Modelled from the spec: the Grid Accessor supplies per-axis domain
bounds, the min and max of the axis coordinates (FDataGrid.domain_range is
not under src/). -/
def FDataGrid.domain_range (fd : FDataGrid) (k : ℕ) : ℚ × ℚ :=
  ((fd.sample_points.getD k []).min?.getD 0,
   (fd.sample_points.getD k []).max?.getD 0)

/-- Shape well-formedness of a grid: at least one domain axis, and every
sample holds one value per grid point (the product of the per-axis
coordinate counts). -/
def FDataGrid.WF (fd : FDataGrid) : Prop :=
  1 ≤ fd.ndim_domain ∧
  ∀ row ∈ fd.data_matrix,
    row.length = (fd.sample_points.map List.length).prod

/-- Number of (flattened) grid points of a scalar data matrix, read off
the shape of its first sample as numpy does. -/
def npoints (m : List (List ℚ)) : ℕ := (m.headD []).length

/-- The cross-section of the samples at one fixed grid point: the slice
data_matrix[:, t]. -/
def column (m : List (List ℚ)) (t : ℕ) : List ℚ :=
  m.map (fun row => row.getD t 0)

/-- The rank array built by _rank_samples: for every grid point, the
samples' values at that point are ranked by rankdata(method='max');
entry [i][t] is the rank of sample i at grid point t. -/
def rankMatrix (m : List (List ℚ)) : List (List ℕ) :=
  (List.range m.length).map (fun i =>
    (List.range (npoints m)).map (fun t =>
      (rankdataMax (column m t)).getD i 0))

/-- Embedding of _rank_samples: reject a multivariate image, otherwise
rank the samples at each point of discretisation. -/
def _rank_samples (fd : FDataGrid) : Except String (List (List ℕ)) :=
  if fd.ndim_image > 1 then
    Except.error "Currently multivariate data is not allowed"
  else
    Except.ok (rankMatrix fd.scalarMatrix)

/-- The scalar band-depth sequence computed by band_depth from the rank
array: for each sample, (nsamples_below * nsamples_above + n - 1) divided
by n choose 2, where nsamples_above counts samples above its largest rank
and nsamples_below counts samples below its smallest rank. -/
def bandFromRanks (n : ℕ) (ranks : List (List ℕ)) : List ℚ :=
  let nchoose2 : ℚ := (n : ℚ) * ((n : ℚ) - 1) / 2
  (List.range n).map (fun i =>
    let row := ranks.getD i []
    let above : ℚ := (n : ℚ) - ((row.max?.getD 0 : ℕ) : ℚ)
    let below : ℚ := ((row.min?.getD 0 : ℕ) : ℚ) - 1
    (below * above + (n : ℚ) - 1) / nchoose2)

/-- Embedding of band_depth with pointwise=False. -/
def band_depth (fd : FDataGrid) : Except String (List ℚ) := do
  let ranks ← _rank_samples fd
  return bandFromRanks fd.nsamples ranks

/-- The scalar and pointwise modified-band-depth arrays computed by
modified_band_depth from the rank array: match[i][t] counts the pairs
bounding sample i at point t, the scalar depth averages match over the
npoints_sample grid points, and the pointwise array keeps it unreduced. -/
def mbdFromRanks (n npoints_sample : ℕ) (ranks : List (List ℕ)) :
    List ℚ × List (List ℚ) :=
  let nchoose2 : ℚ := (n : ℚ) * ((n : ℚ) - 1) / 2
  let matchArr := ranks.map (fun row => row.map (fun (r : ℕ) =>
    ((n : ℚ) - (r : ℚ)) * ((r : ℚ) - 1)))
  let depth := matchArr.map (fun row =>
    (row.sum / (npoints_sample : ℚ) + (n : ℚ) - 1) / nchoose2)
  let depth_pointwise := matchArr.map (fun row => row.map (fun v =>
    (v + (n : ℚ) - 1) / nchoose2))
  (depth, depth_pointwise)

/-- Embedding of modified_band_depth; the first component is the scalar
depth returned with pointwise=False, the pair is the pointwise=True
result. -/
def modified_band_depth (fd : FDataGrid) :
    Except String (List ℚ × List (List ℚ)) := do
  let ranks ← _rank_samples fd
  return mbdFromRanks fd.nsamples
    ((fd.sample_points.map List.length).prod) ranks

/-- Embedding of band_depth with pointwise=True: the scalar band depth
paired with the pointwise array taken from modified_band_depth. -/
def band_depth_pointwise (fd : FDataGrid) :
    Except String (List ℚ × List (List ℚ)) := do
  let depth ← band_depth fd
  let mbd ← modified_band_depth fd
  return (depth, mbd.2)

/-- The core of _cumulative_distribution on a 1-D array: each element is
sent to the cumulative count of its distinct-value group divided by the
array length. -/
def cdfList (a : List ℚ) : List ℚ :=
  (uniqInverse a).map (fun g =>
    ((cumsum (uniqCounts a)).getD g 0 : ℚ) / (a.length : ℚ))

/-- A numpy array argument as passed to _cumulative_distribution: a shape
together with the flattened data. -/
structure NpArray where
  shape : List ℕ
  data : List ℚ

/-- Embedding of _cumulative_distribution: reject non-1-D input, else
evaluate the empirical distribution function at each element. -/
def _cumulative_distribution (column : NpArray) : Except String (List ℚ) :=
  if column.shape.length ≠ 1 then
    Except.error "Only supported 1 dimensional arrays."
  else
    Except.ok (cdfList column.data)

/-- Embedding of one quadratic piece of scipy's _basic_simps over the
interval [x i, x (i+2)], with the non-uniform-spacing weights. -/
def simpsTerm (y x : List ℚ) (i : ℕ) : ℚ :=
  let h0 := x.getD (i+1) 0 - x.getD i 0
  let h1 := x.getD (i+2) 0 - x.getD (i+1) 0
  let hsum := h0 + h1
  hsum / 6 * (y.getD i 0 * (2 - h1 / h0)
    + y.getD (i+1) 0 * (hsum * hsum / (h0 * h1))
    + y.getD (i+2) 0 * (2 - h0 / h1))

/-- Embedding of scipy's _basic_simps: the sum of numPairs quadratic
pieces starting at index start, stepping by two. -/
def basicSimps (y x : List ℚ) (start numPairs : ℕ) : ℚ :=
  ((List.range numPairs).map (fun k => simpsTerm y x (start + 2*k))).sum

/-- Embedding of scipy.integrate.simps along a 1-D sample-point vector
with the default even='avg' handling: with an odd number of points a pure
composite Simpson sum; with an even number, the average of Simpson on the
first points plus a trailing trapezoid and Simpson on the last points plus
a leading trapezoid. -/
def simps (y x : List ℚ) : ℚ :=
  let N := y.length
  if N % 2 = 0 then
    let val := (x.getD (N-1) 0 - x.getD (N-2) 0)
        * (y.getD (N-1) 0 + y.getD (N-2) 0) / 2
      + (x.getD 1 0 - x.getD 0 0) * (y.getD 1 0 + y.getD 0 0) / 2
    let result := basicSimps y x 0 ((N-2)/2) + basicSimps y x 1 ((N-2)/2)
    result / 2 + val / 2
  else
    basicSimps y x 0 ((N-1)/2)

/-- Embedding of fraiman_muniz_depth: reject a multivariate domain or
image, evaluate the pointwise depth 1 - |1/2 - F| from the empirical
distribution of each cross-section, and integrate each sample's pointwise
depth with Simpson quadrature, normalising by the domain length.  The
first component is the pointwise=False result, the pair is the
pointwise=True result. -/
def fraiman_muniz_depth (fd : FDataGrid) :
    Except String (List ℚ × List (List ℚ)) :=
  if fd.ndim_domain > 1 ∨ fd.ndim_image > 1 then
    Except.error "Currently multivariate data is not allowed"
  else
    let m := fd.scalarMatrix
    let pts := fd.sample_points.getD 0 []
    let pointwise_depth := (List.range fd.nsamples).map (fun i =>
      (List.range pts.length).map (fun t =>
        1 - |1/2 - (cdfList (column m t)).getD i 0|))
    let interval_len := (fd.domain_range 0).2 - (fd.domain_range 0).1
    let depth := pointwise_depth.map (fun row => simps row pts / interval_len)
    Except.ok (depth, pointwise_depth)

/-- Decidable equality for Except results, used to evaluate the embedded
functions on concrete grids. -/
instance exceptDecEq {e a : Type} [DecidableEq e] [DecidableEq a] :
    DecidableEq (Except e a) := fun x y =>
  match x, y with
  | Except.ok v, Except.ok w =>
    if h : v = w then isTrue (by rw [h]) else
      isFalse (fun hc => h (Except.ok.inj hc))
  | Except.ok v, Except.error f => isFalse (fun hc => Except.noConfusion hc)
  | Except.error f, Except.ok v => isFalse (fun hc => Except.noConfusion hc)
  | Except.error f, Except.error g =>
    if h : f = g then isTrue (by rw [h]) else
      isFalse (fun hc => h (Except.error.inj hc))

/-- The four-curve reference grid over sample points [0,2,4,6,8,10] from the
doctests of the depth module. -/
def fdRef : FDataGrid :=
  { data_matrix := [[[1],[1],[2],[3],[5/2],[2]],
                    [[1/2],[1/2],[1],[2],[3/2],[1]],
                    [[-1],[-1],[-1/2],[1],[1],[1/2]],
                    [[-1/2],[-1/2],[-1/2],[-1],[-1],[-1]]],
    sample_points := [[0,2,4,6,8,10]],
    ndim_image := 1 }

/-- A grid of three identical samples over two grid points. -/
def fdConst3 : FDataGrid :=
  { data_matrix := [[[1],[1]],[[1],[1]],[[1],[1]]],
    sample_points := [[0,1]],
    ndim_image := 1 }

/-- Two crossing samples over the non-uniformly spaced axis [0,1,10]. -/
def fdUneven : FDataGrid :=
  { data_matrix := [[[0],[1],[0]],[[1],[0],[1]]],
    sample_points := [[0,1,10]],
    ndim_image := 1 }

/-- A grid whose image dimension is two, rejected by the rank engine. -/
def fdMulti : FDataGrid :=
  { data_matrix := [[[1,2],[3,4]],[[5,6],[7,8]]],
    sample_points := [[0,1]],
    ndim_image := 2 }

/-- A grid with a two-dimensional domain, rejected by Fraiman-Muniz depth. -/
def fdSurface : FDataGrid :=
  { data_matrix := [[[1],[2],[3],[4]],[[5],[6],[7],[8]]],
    sample_points := [[0,1],[0,1]],
    ndim_image := 1 }

/-- The grid obtained by permuting the samples of a grid: sample j of the
result is sample (sigma j) of the original. -/
def permuteSamples (fd : FDataGrid) (sigma : Equiv.Perm (Fin fd.nsamples)) :
    FDataGrid :=
  { data_matrix := List.ofFn (fun j => fd.data_matrix.getD (sigma j) []),
    sample_points := fd.sample_points,
    ndim_image := fd.ndim_image }

/-- The transposition of the first two samples of the reference grid. -/
def sigmaRef : Equiv.Perm (Fin fdRef.nsamples) :=
  Equiv.swap ⟨0, by decide⟩ ⟨1, by decide⟩

lemma sortedUniq_sorted (a : List ℚ) : (sortedUniq a).Sorted (· ≤ ·) :=
  List.Pairwise.sublist (List.dedup_sublist _) (List.sorted_insertionSort _ a)

lemma sortedUniq_nodup (a : List ℚ) : (sortedUniq a).Nodup :=
  List.nodup_dedup _

lemma mem_sortedUniq {a : List ℚ} {x : ℚ} : x ∈ sortedUniq a ↔ x ∈ a := by
  rw [sortedUniq, List.mem_dedup]
  exact (List.perm_insertionSort _ a).mem_iff

lemma count_partition (w b : List ℚ) (hw : w.Nodup) (hcov : ∀ x ∈ b, x ∈ w) :
    (w.map (fun u => b.count u)).sum = b.length := by
  rw [← List.sum_toFinset _ hw]
  have h2 : b.toFinset ⊆ w.toFinset := by
    intro x hx
    rw [List.mem_toFinset] at hx ⊢
    exact hcov x hx
  rw [← Finset.sum_subset h2 (fun x _ hxb => by
    rw [List.mem_toFinset] at hxb
    exact List.count_eq_zero_of_not_mem hxb)]
  have h3 := Multiset.toFinset_sum_count_eq (↑b : Multiset ℚ)
  rw [List.toFinset_coe] at h3
  simp only [Multiset.coe_count, Multiset.coe_card] at h3
  exact h3

lemma cumsum_getD (l : List ℕ) (g : ℕ) (hg : g < l.length) :
    (cumsum l).getD g 0 = (l.take (g+1)).sum := by
  have hlen : g < (cumsum l).length := by
    simpa [cumsum] using hg
  rw [List.getD_eq_getElem _ _ hlen]
  simp [cumsum]



lemma sortedUniq_strict (a : List ℚ) : (sortedUniq a).Sorted (· < ·) :=
  (sortedUniq_sorted a).lt_of_le (sortedUniq_nodup a)

lemma rank_count (a : List ℚ) (v : ℚ) (hv : v ∈ a) :
    (cumsum (uniqCounts a)).getD ((sortedUniq a).indexOf v) 0
      = a.countP (fun x => decide (x ≤ v)) := by
  have hvu : v ∈ sortedUniq a := mem_sortedUniq.mpr hv
  have hg : (sortedUniq a).indexOf v < (sortedUniq a).length :=
    List.indexOf_lt_length.mpr hvu
  have hug : (sortedUniq a).get ⟨(sortedUniq a).indexOf v, hg⟩ = v :=
    List.indexOf_get hg
  have hclen : (uniqCounts a).length = (sortedUniq a).length := by
    simp [uniqCounts]
  rw [cumsum_getD _ _ (by rw [hclen]; exact hg)]
  rw [uniqCounts, ← List.map_take]
  have hpair := List.pairwise_iff_getElem.mp (sortedUniq_strict a)
  have hle : ∀ w ∈ (sortedUniq a).take ((sortedUniq a).indexOf v + 1), w ≤ v := by
    intro w hw
    obtain ⟨j, hj, hwj⟩ := List.mem_take_iff_getElem.mp hw
    have hjlen : j < (sortedUniq a).length := lt_of_lt_of_le hj (min_le_right _ _)
    have hjg : j ≤ (sortedUniq a).indexOf v :=
      Nat.lt_succ_iff.mp (lt_of_lt_of_le hj (min_le_left _ _))
    rcases Nat.lt_or_ge j ((sortedUniq a).indexOf v) with hlt | hge
    · have h2 : (sortedUniq a).get ⟨j, hjlen⟩
          < (sortedUniq a).get ⟨(sortedUniq a).indexOf v, hg⟩ := by
        rw [List.get_eq_getElem, List.get_eq_getElem]
        exact hpair j _ hjlen hg hlt
      rw [hug] at h2
      rw [List.get_eq_getElem] at h2
      rw [hwj] at h2
      exact h2.le
    · have hjeq : j = (sortedUniq a).indexOf v := le_antisymm hjg hge
      subst hjeq
      rw [← hwj]
      exact le_of_eq ((List.get_eq_getElem _ _).symm.trans hug)
  have hcnt : ∀ w ∈ (sortedUniq a).take ((sortedUniq a).indexOf v + 1),
      a.count w = (a.filter (fun x => decide (x ≤ v))).count w := by
    intro w hw
    rw [List.count_filter (by simp [hle w hw])]
  have hcov : ∀ x ∈ a.filter (fun x => decide (x ≤ v)),
      x ∈ (sortedUniq a).take ((sortedUniq a).indexOf v + 1) := by
    intro x hx
    rw [List.mem_filter] at hx
    obtain ⟨hxa, hxle⟩ := hx
    rw [decide_eq_true_eq] at hxle
    have hxu : x ∈ sortedUniq a := mem_sortedUniq.mpr hxa
    have hj : (sortedUniq a).indexOf x < (sortedUniq a).length :=
      List.indexOf_lt_length.mpr hxu
    have hux : (sortedUniq a).get ⟨(sortedUniq a).indexOf x, hj⟩ = x :=
      List.indexOf_get hj
    have hjg : (sortedUniq a).indexOf x ≤ (sortedUniq a).indexOf v := by
      by_contra hgt
      push_neg at hgt
      have h2 : (sortedUniq a).get ⟨(sortedUniq a).indexOf v, hg⟩
          < (sortedUniq a).get ⟨(sortedUniq a).indexOf x, hj⟩ := by
        rw [List.get_eq_getElem, List.get_eq_getElem]
        exact hpair _ _ hg hj hgt
      rw [hug, hux] at h2
      exact absurd hxle (not_le.mpr h2)
    refine List.mem_take_iff_getElem.mpr ⟨(sortedUniq a).indexOf x,
      lt_min (Nat.lt_succ_of_le hjg) hj, ?_⟩
    exact (List.get_eq_getElem _ _).symm.trans hux
  rw [List.map_congr_left hcnt, count_partition _ _
    (List.Nodup.sublist (List.take_sublist _ _) (sortedUniq_nodup a)) hcov,
    List.countP_eq_length_filter]



lemma rankdataMax_eq (a : List ℚ) :
    rankdataMax a = a.map (fun v => a.countP (fun x => decide (x ≤ v))) := by
  rw [rankdataMax, uniqInverse, List.map_map]
  exact List.map_congr_left (fun v hv => rank_count a v hv)

lemma cdfList_eq (a : List ℚ) :
    cdfList a = a.map (fun v =>
      ((a.countP (fun x => decide (x ≤ v)) : ℕ) : ℚ) / (a.length : ℚ)) := by
  rw [cdfList, uniqInverse, List.map_map]
  exact List.map_congr_left (fun v hv => by
    simp only [Function.comp_apply]
    rw [rank_count a v hv])

lemma column_length (m : List (List ℚ)) (t : ℕ) : (column m t).length = m.length := by
  simp [column]

lemma column_getD (m : List (List ℚ)) (t k : ℕ) :
    (column m t).getD k 0 = (m.getD k []).getD t 0 := by
  rcases Nat.lt_or_ge k m.length with hk | hk
  · rw [List.getD_eq_getElem _ _ (by rw [column_length]; exact hk)]
    simp only [column, List.getElem_map, List.getD_eq_getElem?_getD]
    rw [List.getElem?_eq_getElem hk]
    rfl
  · rw [List.getD_eq_default _ _ (by rw [column_length]; exact hk),
      List.getD_eq_default _ _ hk]
    simp

lemma rankdataMax_getD (a : List ℚ) (i : ℕ) (hi : i < a.length) :
    (rankdataMax a).getD i 0 = a.countP (fun x => decide (x ≤ a.getD i 0)) := by
  rw [rankdataMax_eq]
  rw [List.getD_eq_getElem _ _ (by simpa using hi), List.getElem_map,
    List.getD_eq_getElem _ _ hi]

lemma rankMatrix_length (m : List (List ℚ)) : (rankMatrix m).length = m.length := by
  simp [rankMatrix]

lemma rankMatrix_getD (m : List (List ℚ)) (i : ℕ) (hi : i < m.length) :
    (rankMatrix m).getD i [] = (List.range (npoints m)).map (fun t =>
      (column m t).countP (fun x => decide (x ≤ (m.getD i []).getD t 0))) := by
  rw [rankMatrix, List.getD_eq_getElem _ _ (by simpa using hi), List.getElem_map,
    List.getElem_range]
  refine List.map_congr_left (fun t ht => ?_)
  rw [rankdataMax_getD _ i (by rw [column_length]; exact hi), column_getD m t i]



lemma scalarMatrix_length (fd : FDataGrid) :
    fd.scalarMatrix.length = fd.nsamples := by
  simp [FDataGrid.scalarMatrix, FDataGrid.nsamples]

/-- C10: the scalar band-depth sequence is independent of the pointwise
flag: the first component of the pointwise=True call of band_depth equals
the pointwise=False result. -/
theorem C10_band_scalar_flag_independent (fd : FDataGrid) :
    (band_depth_pointwise fd).map Prod.fst = band_depth fd := by
  by_cases h : fd.ndim_image > 1 <;>
    simp [band_depth_pointwise, band_depth, modified_band_depth,
      _rank_samples, h, Except.map, bind, Except.bind, pure, Except.pure]

/-- C7: the pointwise array of band_depth with pointwise=True is exactly
the pointwise array of modified_band_depth. -/
theorem C7_band_pointwise_defers (fd : FDataGrid) :
    (band_depth_pointwise fd).map Prod.snd
      = (modified_band_depth fd).map Prod.snd := by
  by_cases h : fd.ndim_image > 1 <;>
    simp [band_depth_pointwise, band_depth, modified_band_depth,
      _rank_samples, h, Except.map, bind, Except.bind, pure, Except.pure]

/-- C9: each operation fails with the single invalid-dimension error
exactly on its precondition violation: the rank engine, band depth and
modified band depth iff the image dimension exceeds one; the empirical
distribution step iff its input is not one-dimensional; Fraiman-Muniz
depth iff the domain dimension is other than one or the image dimension
exceeds one. -/
theorem C9_invalid_dimension_iff :
    (∀ fd : FDataGrid,
      (∃ e, _rank_samples fd = Except.error e) ↔ 1 < fd.ndim_image) ∧
    (∀ fd : FDataGrid,
      (∃ e, band_depth fd = Except.error e) ↔ 1 < fd.ndim_image) ∧
    (∀ fd : FDataGrid,
      (∃ e, modified_band_depth fd = Except.error e) ↔ 1 < fd.ndim_image) ∧
    (∀ arr : NpArray,
      (∃ e, _cumulative_distribution arr = Except.error e) ↔
        arr.shape.length ≠ 1) ∧
    (∀ fd : FDataGrid, 1 ≤ fd.ndim_domain →
      ((∃ e, fraiman_muniz_depth fd = Except.error e) ↔
        (fd.ndim_domain ≠ 1 ∨ 1 < fd.ndim_image))) := by
  refine ⟨fun fd => ?_, fun fd => ?_, fun fd => ?_, fun arr => ?_,
    fun fd hd => ?_⟩
  · by_cases h : fd.ndim_image > 1 <;> simp [_rank_samples, h]
  · by_cases h : fd.ndim_image > 1 <;>
      simp [band_depth, _rank_samples, h, bind, Except.bind, pure, Except.pure]
  · by_cases h : fd.ndim_image > 1 <;>
      simp [modified_band_depth, _rank_samples, h, bind, Except.bind, pure, Except.pure]
  · by_cases h : arr.shape.length ≠ 1 <;> simp [_cumulative_distribution, h]
  · have hiff : fd.ndim_domain > 1 ∨ fd.ndim_image > 1 ↔
        fd.ndim_domain ≠ 1 ∨ 1 < fd.ndim_image := by omega
    by_cases h : fd.ndim_domain > 1 ∨ fd.ndim_image > 1
    · simp [fraiman_muniz_depth, h, hiff.mp h]
    · simp [fraiman_muniz_depth, h]
      push_neg at h
      omega

/-- C9 witness: the error conditions fire at a grid with image dimension
two, at a two-axis grid for Fraiman-Muniz depth, and at a 2-D array for
the empirical distribution step. -/
theorem C9_invalid_dimension_iff_witness :
    (∃ e, _rank_samples fdMulti = Except.error e) ∧
    (∃ e, fraiman_muniz_depth fdSurface = Except.error e) ∧
    (∃ e, _cumulative_distribution ⟨[2, 2], [1, 2, 3, 4]⟩
      = Except.error e) := by
  refine ⟨(C9_invalid_dimension_iff.1 fdMulti).mpr (by decide),
    (C9_invalid_dimension_iff.2.2.2.2 fdSurface (by decide)).mpr
      (Or.inl (by decide)),
    (C9_invalid_dimension_iff.2.2.2.1 ⟨[2, 2], [1, 2, 3, 4]⟩).mpr
      (by decide)⟩


/-- C3: on a grid with image dimension one the rank engine succeeds and
assigns, independently at each grid point, a rank equal to the number of
samples whose value at that point is at most the sample's own value; the
rank lies in [1, n_samples], and a sample whose value at a point is
largest (also under ties) receives rank n_samples there. -/
theorem C3_rank_engine (fd : FDataGrid) (himg : fd.ndim_image = 1)
    (i t : ℕ) (hi : i < fd.nsamples) (ht : t < npoints fd.scalarMatrix) :
    ∃ R, _rank_samples fd = Except.ok R ∧
      (R.getD i []).getD t 0 =
        (column fd.scalarMatrix t).countP
          (fun x => decide (x ≤ (fd.scalarMatrix.getD i []).getD t 0)) ∧
      1 ≤ (R.getD i []).getD t 0 ∧
      (R.getD i []).getD t 0 ≤ fd.nsamples ∧
      ((∀ j, j < fd.nsamples →
          (fd.scalarMatrix.getD j []).getD t 0
            ≤ (fd.scalarMatrix.getD i []).getD t 0) →
        (R.getD i []).getD t 0 = fd.nsamples) := by
  have hok : _rank_samples fd = Except.ok (rankMatrix fd.scalarMatrix) := by
    simp [_rank_samples, himg]
  have hiS : i < fd.scalarMatrix.length := by
    rw [scalarMatrix_length]; exact hi
  have hrow := rankMatrix_getD fd.scalarMatrix i hiS
  have hentry : ((rankMatrix fd.scalarMatrix).getD i []).getD t 0 =
      (column fd.scalarMatrix t).countP
        (fun x => decide (x ≤ (fd.scalarMatrix.getD i []).getD t 0)) := by
    rw [hrow, List.getD_eq_getElem _ _ (by simpa using ht), List.getElem_map,
      List.getElem_range]
  refine ⟨rankMatrix fd.scalarMatrix, hok, hentry, ?_, ?_, ?_⟩
  · rw [hentry]
    have hmem : (fd.scalarMatrix.getD i []).getD t 0 ∈ column fd.scalarMatrix t := by
      rw [← column_getD fd.scalarMatrix t i,
        List.getD_eq_getElem _ _ (by rw [column_length]; exact hiS)]
      exact List.getElem_mem _
    have : 0 < (column fd.scalarMatrix t).countP
        (fun x => decide (x ≤ (fd.scalarMatrix.getD i []).getD t 0)) :=
      List.countP_pos_iff.mpr ⟨_, hmem, by simp⟩
    omega
  · rw [hentry]
    calc (column fd.scalarMatrix t).countP _ ≤ (column fd.scalarMatrix t).length :=
        List.countP_le_length _
      _ = fd.nsamples := by rw [column_length, scalarMatrix_length]
  · intro htop
    rw [hentry]
    have hcl : (column fd.scalarMatrix t).length = fd.nsamples := by
      rw [column_length, scalarMatrix_length]
    rw [← hcl]
    apply List.countP_eq_length.mpr
    intro x hx
    obtain ⟨j, hj, hxj⟩ := List.mem_iff_getElem.mp hx
    have hj2 : j < fd.scalarMatrix.length := by
      rw [column_length] at hj; exact hj
    have hx2 : x = (fd.scalarMatrix.getD j []).getD t 0 := by
      rw [← hxj, ← column_getD fd.scalarMatrix t j,
        List.getD_eq_getElem _ _ (by rw [column_length]; exact hj2)]
    simp only [decide_eq_true_eq]
    rw [hx2]
    exact htop j (by rw [← scalarMatrix_length fd]; exact hj2)


/-- C3 witness: the rank characterisation instantiated on the reference
grid at sample 1 and grid point 2. -/
theorem C3_rank_engine_witness :
    ∃ R, _rank_samples fdRef = Except.ok R ∧
      (R.getD 1 []).getD 2 0 =
        (column fdRef.scalarMatrix 2).countP
          (fun x => decide (x ≤ (fdRef.scalarMatrix.getD 1 []).getD 2 0)) ∧
      1 ≤ (R.getD 1 []).getD 2 0 ∧
      (R.getD 1 []).getD 2 0 ≤ fdRef.nsamples ∧
      ((∀ j, j < fdRef.nsamples →
          (fdRef.scalarMatrix.getD j []).getD 2 0
            ≤ (fdRef.scalarMatrix.getD 1 []).getD 2 0) →
        (R.getD 1 []).getD 2 0 = fdRef.nsamples) :=
  C3_rank_engine fdRef rfl 1 2 (by decide) (by decide)

/-- C4: on a one-dimensional array the empirical distribution step
returns, per entry, the proportion of the values at most that entry's
value (so tied entries share one proportion). -/
theorem C4_cumulative_distribution (arr : NpArray)
    (h1 : arr.shape = [arr.data.length]) :
    _cumulative_distribution arr = Except.ok (arr.data.map (fun v =>
      ((arr.data.countP (fun x => decide (x ≤ v)) : ℕ) : ℚ)
        / (arr.data.length : ℚ))) := by
  rw [_cumulative_distribution, if_neg (by rw [h1]; simp), cdfList_eq]

section
attribute [local semireducible] Rat.mul Rat.inv Rat.add Rat.sub Rat.ofScientific

/-- C4 witness: the empirical distribution of the reference array
[1,4,5,1,2,2,4,1,1,3] is exactly [0.4,0.9,1.0,0.4,0.6,0.6,0.9,0.4,0.4,0.7]. -/
theorem C4_cumulative_distribution_witness :
    _cumulative_distribution ⟨[10], [1, 4, 5, 1, 2, 2, 4, 1, 1, 3]⟩
      = Except.ok [2/5, 9/10, 1, 2/5, 3/5, 3/5, 9/10, 2/5, 2/5, 7/10] := by
  rw [C4_cumulative_distribution ⟨[10], [1, 4, 5, 1, 2, 2, 4, 1, 1, 3]⟩ rfl]
  decide

/-- C1: on the four-curve reference grid, band depth is
[0.5, 0.8333..., 0.5, 0.5], modified band depth is
[0.5, 0.8333..., 0.7222..., 0.6666...] and Fraiman-Muniz depth is
[0.5, 0.75, 0.925, 0.875], all exactly. -/
theorem C1_reference_depths :
    band_depth fdRef = Except.ok [1/2, 5/6, 1/2, 1/2] ∧
    (modified_band_depth fdRef).map Prod.fst
      = Except.ok [1/2, 5/6, 13/18, 2/3] ∧
    (fraiman_muniz_depth fdRef).map Prod.fst
      = Except.ok [1/2, 3/4, 37/40, 7/8] := by decide

/-- C2 counterexample: on three identical samples, band depth and
modified band depth are 2/3 for every sample, not 1. -/
theorem C2_identical_counterexample :
    band_depth fdConst3 = Except.ok [2/3, 2/3, 2/3] ∧
    (modified_band_depth fdConst3).map Prod.fst
      = Except.ok [2/3, 2/3, 2/3] ∧
    ¬((2 : ℚ)/3 = 1) := by decide

/-- C5 counterexample: on the non-uniformly spaced axis [0,1,10] the
Fraiman-Muniz depths are 2/27 and 77/54, falling outside [0.5, 1] on both
sides. -/
theorem C5_range_counterexample :
    (fraiman_muniz_depth fdUneven).map Prod.fst
      = Except.ok [2/27, 77/54] ∧
    ¬((1 : ℚ)/2 ≤ 2/27) ∧ ¬((77 : ℚ)/54 ≤ 1) := by decide

end


lemma countP_replicate_self (n : ℕ) (c : ℚ) :
    (List.replicate n c).countP (fun x => decide (x ≤ c)) = n := by
  rw [List.countP_eq_length.mpr ?_, List.length_replicate]
  intro a ha
  rw [List.eq_of_mem_replicate ha]
  simp

lemma rankMatrix_replicate (n : ℕ) (hn : 1 ≤ n) (r : List ℚ) :
    rankMatrix (List.replicate n r) = List.replicate n (List.replicate r.length n) := by
  have hnp : npoints (List.replicate n r) = r.length := by
    cases n with
    | zero => omega
    | succ k => simp [npoints, List.replicate_succ]
  have hrow : ∀ i ∈ List.range (List.replicate n r).length,
      (List.range (npoints (List.replicate n r))).map (fun t =>
        (rankdataMax (column (List.replicate n r) t)).getD i 0)
        = List.replicate r.length n := by
    intro i hi
    rw [List.mem_range, List.length_replicate] at hi
    have hcol : ∀ t, column (List.replicate n r) t = List.replicate n (r.getD t 0) := by
      intro t
      rw [column, List.map_replicate]
    have hterm : ∀ t ∈ List.range (npoints (List.replicate n r)),
        (rankdataMax (column (List.replicate n r) t)).getD i 0 = n := by
      intro t ht
      have hlen : i < (column (List.replicate n r) t).length := by
        rw [column_length, List.length_replicate]; exact hi
      rw [rankdataMax_getD _ i hlen]
      have hv : (column (List.replicate n r) t).getD i 0 = r.getD t 0 := by
        rw [List.getD_eq_getElem _ _ hlen]
        simp only [hcol t, List.getElem_replicate]
      rw [hv, hcol t, countP_replicate_self]
    rw [List.map_congr_left hterm, List.map_const', List.length_range, hnp]
  rw [rankMatrix, List.map_congr_left hrow, List.map_const', List.length_range,
    List.length_replicate]

/-- C2 amended: for a grid of n identical samples (n at least 2, image
dimension one, at least one grid point), every sample's band depth and
modified band depth equal 2/n, which is 1.0 exactly when n = 2. -/
theorem C2_identical_depth (fd : FDataGrid) (himg : fd.ndim_image = 1)
    (n : ℕ) (hn : 2 ≤ n) (r : List (List ℚ))
    (hdata : fd.data_matrix = List.replicate n r) (hr : 1 ≤ r.length) :
    band_depth fd = Except.ok (List.replicate n (2 / (n : ℚ))) ∧
    (modified_band_depth fd).map Prod.fst
      = Except.ok (List.replicate n (2 / (n : ℚ))) := by
  have hm : fd.scalarMatrix = List.replicate n (r.map (fun v => v.getD 0 0)) := by
    rw [FDataGrid.scalarMatrix, hdata, List.map_replicate]
  have hnsamp : fd.nsamples = n := by
    rw [FDataGrid.nsamples, hdata, List.length_replicate]
  have hranks : rankMatrix fd.scalarMatrix
      = List.replicate n (List.replicate r.length n) := by
    rw [hm, rankMatrix_replicate n (by omega) _]
    simp
  have hn0 : ((n : ℚ)) ≠ 0 := by
    have : (0:ℚ) < (n:ℚ) := by exact_mod_cast Nat.lt_of_lt_of_le Nat.zero_lt_two hn
    exact ne_of_gt this
  have hn1 : ((n : ℚ)) - 1 ≠ 0 := by
    have : (1:ℚ) < (n:ℚ) := by exact_mod_cast Nat.lt_of_lt_of_le Nat.one_lt_two hn
    intro hc
    have : (n:ℚ) = 1 := by linarith
    linarith
  have hentry : (((n : ℚ)) - 1) / ((n : ℚ) * ((n : ℚ) - 1) / 2) = 2 / (n : ℚ) := by
    field_simp
    ring
  have hok : _rank_samples fd = Except.ok (rankMatrix fd.scalarMatrix) := by
    simp [_rank_samples, himg]
  constructor
  · rw [band_depth]
    simp only [hok, bind, Except.bind, pure, Except.pure]
    rw [hranks, hnsamp]
    congr 1
    apply List.ext_getElem
    · simp [bandFromRanks]
    · intro k hk1 hk2
      have hkn : k < n := by simpa [bandFromRanks] using hk1
      simp only [bandFromRanks, List.getElem_map, List.getElem_range,
        List.getElem_replicate]
      rw [List.getD_eq_getElem _ _ (by simpa using hkn), List.getElem_replicate,
        List.min?_replicate_of_pos (Nat.min_self n) hr,
        List.max?_replicate_of_pos (Nat.max_self n) hr]
      simp only [Option.getD_some]
      rw [show ((n:ℚ) - 1) * ((n:ℚ) - (n:ℚ)) + (n:ℚ) - 1 = (n:ℚ) - 1 by ring,
        hentry]
  · rw [modified_band_depth]
    simp only [hok, bind, Except.bind, pure, Except.pure, Except.map]
    congr 1
    rw [hranks, hnsamp, mbdFromRanks]
    simp only []
    apply List.ext_getElem
    · simp
    · intro k hk1 hk2
      have hkn : k < n := by simpa using hk1
      simp only [List.getElem_map, List.getElem_replicate, List.map_replicate,
        List.sum_replicate, List.getElem_replicate]
      rw [show ((n:ℚ) - (n:ℚ)) * ((n:ℚ) - 1) = 0 by ring]
      rw [smul_zero, zero_div, zero_add, hentry]


section
attribute [local semireducible] Rat.mul Rat.inv Rat.add Rat.sub Rat.ofScientific

/-- C2 witness: the amended statement instantiated on three identical
samples, where both depths are 2/3. -/
theorem C2_identical_depth_witness :
    band_depth fdConst3 = Except.ok (List.replicate 3 (2 / (3 : ℚ))) ∧
    (modified_band_depth fdConst3).map Prod.fst
      = Except.ok (List.replicate 3 (2 / (3 : ℚ))) :=
  C2_identical_depth fdConst3 rfl 3 (by decide) [[1],[1]] (by decide) (by decide)

end

lemma sum_map_affine (l : List ℚ) (c C : ℚ) :
    (l.map (fun v => (v + c) / C)).sum = (l.sum + (l.length : ℚ) * c) / C := by
  induction l with
  | nil => simp
  | cons x xs ih =>
    simp only [List.map_cons, List.sum_cons, ih, List.length_cons]
    push_cast
    by_cases hC : C = 0
    · simp [hC]
    · field_simp
      ring

lemma mbdFromRanks_fst (n P : ℕ) (M : List (List ℕ)) :
    (mbdFromRanks n P M).1 = (M.map (fun row => row.map (fun (r : ℕ) =>
      ((n : ℚ) - (r : ℚ)) * ((r : ℚ) - 1)))).map (fun row =>
      (row.sum / (P : ℚ) + (n : ℚ) - 1)
        / ((n : ℚ) * ((n : ℚ) - 1) / 2)) := rfl

lemma mbdFromRanks_snd (n P : ℕ) (M : List (List ℕ)) :
    (mbdFromRanks n P M).2 = (M.map (fun row => row.map (fun (r : ℕ) =>
      ((n : ℚ) - (r : ℚ)) * ((r : ℚ) - 1)))).map (fun row =>
      row.map (fun v => (v + (n : ℚ) - 1)
        / ((n : ℚ) * ((n : ℚ) - 1) / 2))) := rfl

/-- C6: the arithmetic mean over all grid points of each row of the
pointwise modified band depth array equals the corresponding scalar
modified band depth. -/
theorem C6_mbd_pointwise_mean (fd : FDataGrid) (himg : fd.ndim_image = 1)
    (hwf : fd.WF) (hn : 2 ≤ fd.nsamples)
    (hP : 1 ≤ (fd.sample_points.map List.length).prod) :
    ∃ d pw, modified_band_depth fd = Except.ok (d, pw) ∧
      ∀ i < fd.nsamples,
        (pw.getD i []).sum / ((pw.getD i []).length : ℚ) = d.getD i 0 := by
  have hok : _rank_samples fd = Except.ok (rankMatrix fd.scalarMatrix) := by
    simp [_rank_samples, himg]
  have hmbd : modified_band_depth fd = Except.ok
      (mbdFromRanks fd.nsamples ((fd.sample_points.map List.length).prod)
        (rankMatrix fd.scalarMatrix)) := by
    rw [modified_band_depth]
    simp only [hok, bind, Except.bind, pure, Except.pure]
  refine ⟨(mbdFromRanks fd.nsamples ((fd.sample_points.map List.length).prod)
      (rankMatrix fd.scalarMatrix)).1,
    (mbdFromRanks fd.nsamples ((fd.sample_points.map List.length).prod)
      (rankMatrix fd.scalarMatrix)).2, by rw [hmbd], ?_⟩
  intro i hi
  have hi2 : i < fd.scalarMatrix.length := by rw [scalarMatrix_length]; exact hi
  have hiM : i < (rankMatrix fd.scalarMatrix).length := by
    rw [rankMatrix_length]; exact hi2
  have hrowlen : ((rankMatrix fd.scalarMatrix).getD i []).length
      = npoints fd.scalarMatrix := by
    rw [rankMatrix_getD _ i hi2, List.length_map, List.length_range]
  have hnp : npoints fd.scalarMatrix = (fd.sample_points.map List.length).prod := by
    have h0 : 0 < fd.data_matrix.length := by
      have h := hn
      rw [FDataGrid.nsamples] at h
      omega
    cases hd : fd.data_matrix with
    | nil => rw [hd] at h0; simp at h0
    | cons x xs =>
      have hxmem : x ∈ fd.data_matrix := by rw [hd]; exact List.mem_cons_self x xs
      have := hwf.2 x hxmem
      rw [npoints, FDataGrid.scalarMatrix, hd]
      simpa using this
  have hsnd : (mbdFromRanks fd.nsamples ((fd.sample_points.map List.length).prod)
        (rankMatrix fd.scalarMatrix)).2.getD i []
      = (((rankMatrix fd.scalarMatrix).getD i []).map (fun (r : ℕ) =>
          ((fd.nsamples : ℚ) - (r : ℚ)) * ((r : ℚ) - 1))).map (fun v =>
          (v + (fd.nsamples : ℚ) - 1)
            / ((fd.nsamples : ℚ) * ((fd.nsamples : ℚ) - 1) / 2)) := by
    rw [mbdFromRanks_snd,
      List.getD_eq_getElem _ _ (by simpa using hiM), List.getElem_map,
      List.getElem_map, List.getD_eq_getElem _ _ hiM]
  have hfst : (mbdFromRanks fd.nsamples ((fd.sample_points.map List.length).prod)
        (rankMatrix fd.scalarMatrix)).1.getD i 0
      = ((((rankMatrix fd.scalarMatrix).getD i []).map (fun (r : ℕ) =>
          ((fd.nsamples : ℚ) - (r : ℚ)) * ((r : ℚ) - 1))).sum
            / (((fd.sample_points.map List.length).prod : ℚ))
          + (fd.nsamples : ℚ) - 1)
        / ((fd.nsamples : ℚ) * ((fd.nsamples : ℚ) - 1) / 2) := by
    rw [mbdFromRanks_fst,
      List.getD_eq_getElem _ _ (by simpa using hiM), List.getElem_map,
      List.getElem_map, List.getD_eq_getElem _ _ hiM]
  rw [hsnd, hfst]
  have haff : ∀ v : ℚ, (v + (fd.nsamples : ℚ) - 1)
      / ((fd.nsamples : ℚ) * ((fd.nsamples : ℚ) - 1) / 2)
      = (v + ((fd.nsamples : ℚ) - 1))
        / ((fd.nsamples : ℚ) * ((fd.nsamples : ℚ) - 1) / 2) := by
    intro v
    ring
  rw [List.map_congr_left (fun v _ => haff v), sum_map_affine]
  simp only [List.length_map]
  rw [hrowlen, hnp]
  have hPQ : (((fd.sample_points.map List.length).prod : ℕ) : ℚ) ≠ 0 := by
    have : (0:ℚ) < (((fd.sample_points.map List.length).prod : ℕ) : ℚ) := by
      exact_mod_cast hP
    exact ne_of_gt this
  have key : ∀ S C P c : ℚ, P ≠ 0 → ((S + P * c) / C) / P = (S / P + c) / C := by
    intro S C P c hP0
    rw [div_div, mul_comm C P, ← div_div, add_div, mul_div_cancel_left₀ _ hP0]
  rw [key _ _ _ _ hPQ]
  ring


/-- C6 witness: the round-trip equality instantiated on the reference
grid. -/
theorem C6_mbd_pointwise_mean_witness :
    ∃ d pw, modified_band_depth fdRef = Except.ok (d, pw) ∧
      ∀ i < fdRef.nsamples,
        (pw.getD i []).sum / ((pw.getD i []).length : ℚ) = d.getD i 0 :=
  C6_mbd_pointwise_mean fdRef rfl ⟨by decide, by decide⟩ (by decide) (by decide)


lemma ofFn_getD_self (l : List ℚ) (n : ℕ) (h : l.length = n) :
    List.ofFn (fun j : Fin n => l.getD (j : ℕ) 0) = l := by
  subst h
  apply List.ext_getElem
  · simp
  · intro k h1 h2
    rw [List.getElem_ofFn]
    exact List.getD_eq_getElem _ _ h2

lemma count_finRange (n : ℕ) (x : Fin n) : (List.finRange n).count x = 1 :=
  List.count_eq_one_of_mem (List.nodup_finRange n) (List.mem_finRange x)

lemma map_perm_finRange (n : ℕ) (sigma : Equiv.Perm (Fin n)) :
    ((List.finRange n).map sigma).Perm (List.finRange n) := by
  rw [List.perm_iff_count]
  intro x
  have h1 : (List.finRange n).count (sigma.symm x) = 1 := count_finRange n _
  have h2 : ((List.finRange n).map sigma).count x
      = (List.finRange n).count (sigma.symm x) := by
    have := List.count_map_of_injective (List.finRange n) (sigma : Fin n → Fin n)
      (Equiv.injective sigma) (sigma.symm x)
    rw [Equiv.apply_symm_apply] at this
    exact this
  rw [h2, h1, count_finRange]

lemma countP_ofFn_perm (n : ℕ) (g : Fin n → ℚ) (sigma : Equiv.Perm (Fin n))
    (p : ℚ → Bool) :
    (List.ofFn (fun j => g (sigma j))).countP p = (List.ofFn g).countP p := by
  rw [List.ofFn_eq_map, List.ofFn_eq_map]
  have h1 : (List.finRange n).map (fun j => g (sigma j))
      = ((List.finRange n).map sigma).map g := by
    rw [List.map_map]
    rfl
  rw [h1]
  exact (map_perm_finRange n sigma).map g |>.countP_eq p


lemma scalar_getD (fd : FDataGrid) (k : ℕ) :
    fd.scalarMatrix.getD k [] =
      (fd.data_matrix.getD k []).map (fun v => v.getD 0 0) := by
  rcases Nat.lt_or_ge k fd.data_matrix.length with hk | hk
  · rw [List.getD_eq_getElem _ _ (by rw [scalarMatrix_length, FDataGrid.nsamples]; exact hk),
      List.getD_eq_getElem _ _ hk]
    exact List.getElem_map _
  · rw [List.getD_eq_default _ _ (by rw [scalarMatrix_length, FDataGrid.nsamples]; exact hk),
      List.getD_eq_default _ _ hk]
    simp

lemma permuteSamples_nsamples (fd : FDataGrid) (sigma : Equiv.Perm (Fin fd.nsamples)) :
    (permuteSamples fd sigma).nsamples = fd.nsamples := by
  rw [FDataGrid.nsamples, permuteSamples]
  simp

lemma permuteSamples_scalar (fd : FDataGrid) (sigma : Equiv.Perm (Fin fd.nsamples)) :
    (permuteSamples fd sigma).scalarMatrix
      = List.ofFn (fun j : Fin fd.nsamples => fd.scalarMatrix.getD (sigma j) []) := by
  simp only [FDataGrid.scalarMatrix, permuteSamples, List.map_ofFn]
  refine congrArg List.ofFn (funext fun j => ?_)
  simp only [Function.comp_apply]
  exact (scalar_getD fd _).symm

lemma permuteSamples_WF (fd : FDataGrid) (hwf : fd.WF)
    (sigma : Equiv.Perm (Fin fd.nsamples)) : (permuteSamples fd sigma).WF := by
  constructor
  · exact hwf.1
  · intro row hrow
    rw [permuteSamples] at hrow
    simp only at hrow
    obtain ⟨j, hj⟩ := Set.mem_range.mp ((List.mem_ofFn _ _).mp hrow)
    have hjn : ((sigma j : Fin fd.nsamples) : ℕ) < fd.data_matrix.length :=
      (sigma j).isLt
    have hmem : fd.data_matrix.getD (sigma j) [] ∈ fd.data_matrix := by
      rw [List.getD_eq_getElem _ _ hjn]
      exact List.getElem_mem _
    rw [← hj]
    exact hwf.2 _ hmem

lemma npoints_eq_prod (fd : FDataGrid) (hwf : fd.WF) (hn : 1 ≤ fd.nsamples) :
    npoints fd.scalarMatrix = (fd.sample_points.map List.length).prod := by
  have h0 : 0 < fd.data_matrix.length := by
    rw [FDataGrid.nsamples] at hn
    omega
  cases hd : fd.data_matrix with
  | nil => rw [hd] at h0; simp at h0
  | cons x xs =>
    have hxmem : x ∈ fd.data_matrix := by
      rw [hd]
      exact List.mem_cons_self x xs
    have := hwf.2 x hxmem
    rw [npoints, FDataGrid.scalarMatrix, hd]
    simpa using this

lemma column_ofFn (m : List (List ℚ)) (n : ℕ) (hlen : m.length = n) (t : ℕ) :
    column m t = List.ofFn (fun j : Fin n => (m.getD (j : ℕ) []).getD t 0) := by
  have h1 : List.ofFn (fun j : Fin n => (m.getD (j : ℕ) []).getD t 0)
      = List.ofFn (fun j : Fin n => (column m t).getD (j : ℕ) 0) :=
    congrArg List.ofFn (funext fun j => (column_getD m t j).symm)
  rw [h1, ofFn_getD_self _ n (by rw [column_length]; exact hlen)]

lemma permute_rank_rows (fd : FDataGrid) (hwf : fd.WF) (hn : 1 ≤ fd.nsamples)
    (sigma : Equiv.Perm (Fin fd.nsamples)) (j : Fin fd.nsamples) :
    (rankMatrix (permuteSamples fd sigma).scalarMatrix).getD (j : ℕ) []
      = (rankMatrix fd.scalarMatrix).getD ((sigma j : Fin fd.nsamples) : ℕ) [] := by
  have hmlen : fd.scalarMatrix.length = fd.nsamples := scalarMatrix_length fd
  have hm'len : (permuteSamples fd sigma).scalarMatrix.length = fd.nsamples := by
    rw [permuteSamples_scalar]
    simp
  have hm'getD : ∀ k : Fin fd.nsamples,
      (permuteSamples fd sigma).scalarMatrix.getD (k : ℕ) []
        = fd.scalarMatrix.getD ((sigma k : Fin fd.nsamples) : ℕ) [] := by
    intro k
    rw [permuteSamples_scalar,
      List.getD_eq_getElem _ _ (by simpa using k.isLt), List.getElem_ofFn]
  have hnp' : npoints (permuteSamples fd sigma).scalarMatrix
      = npoints fd.scalarMatrix := by
    rw [npoints_eq_prod _ hwf hn,
      npoints_eq_prod _ (permuteSamples_WF fd hwf sigma)
        (by rw [permuteSamples_nsamples]; exact hn)]
    rw [permuteSamples]
  have hcol : ∀ t (p : ℚ → Bool),
      (column (permuteSamples fd sigma).scalarMatrix t).countP p
        = (column fd.scalarMatrix t).countP p := by
    intro t p
    rw [column_ofFn _ fd.nsamples hm'len t, column_ofFn _ fd.nsamples hmlen t]
    have h2 : (List.ofFn (fun k : Fin fd.nsamples =>
        ((permuteSamples fd sigma).scalarMatrix.getD (k : ℕ) []).getD t 0))
        = List.ofFn (fun k : Fin fd.nsamples =>
          (fd.scalarMatrix.getD ((sigma k : Fin fd.nsamples) : ℕ) []).getD t 0) :=
      congrArg List.ofFn (funext fun k => by rw [hm'getD k])
    rw [h2]
    exact countP_ofFn_perm fd.nsamples
      (fun k : Fin fd.nsamples => (fd.scalarMatrix.getD (k : ℕ) []).getD t 0)
      sigma p
  rw [rankMatrix_getD _ (j : ℕ) (by rw [hm'len]; exact j.isLt),
    rankMatrix_getD _ ((sigma j : Fin fd.nsamples) : ℕ)
      (by rw [hmlen]; exact (sigma j).isLt),
    hnp']
  refine List.map_congr_left (fun t ht => ?_)
  rw [hm'getD j, hcol t]


lemma bandFromRanks_getD (n : ℕ) (M : List (List ℕ)) (k : ℕ) (hk : k < n) :
    (bandFromRanks n M).getD k 0
      = (((((M.getD k []).min?.getD 0 : ℕ) : ℚ) - 1)
          * ((n : ℚ) - (((M.getD k []).max?.getD 0 : ℕ) : ℚ)) + (n : ℚ) - 1)
        / ((n : ℚ) * ((n : ℚ) - 1) / 2) := by
  rw [bandFromRanks, List.getD_eq_getElem _ _ (by simpa using hk),
    List.getElem_map, List.getElem_range]

lemma mbdFromRanks_fst_getD (n P : ℕ) (M : List (List ℕ)) (k : ℕ)
    (hk : k < M.length) :
    (mbdFromRanks n P M).1.getD k 0
      = (((M.getD k []).map (fun (r : ℕ) =>
            ((n : ℚ) - (r : ℚ)) * ((r : ℚ) - 1))).sum / (P : ℚ)
          + (n : ℚ) - 1) / ((n : ℚ) * ((n : ℚ) - 1) / 2) := by
  rw [mbdFromRanks_fst, List.getD_eq_getElem _ _ (by simpa using hk),
    List.getElem_map, List.getElem_map, List.getD_eq_getElem _ _ hk]

/-- C8: permuting the samples of a grid permutes the band depth and
modified band depth sequences identically, values unchanged: entry j of
the permuted grid's result equals entry (sigma j) of the original
result. -/
theorem C8_permutation_equivariance (fd : FDataGrid) (hwf : fd.WF)
    (himg : fd.ndim_image = 1) (hn : 2 ≤ fd.nsamples)
    (sigma : Equiv.Perm (Fin fd.nsamples)) (j : Fin fd.nsamples) :
    ∃ d d' md md',
      band_depth fd = Except.ok d ∧
      band_depth (permuteSamples fd sigma) = Except.ok d' ∧
      d'.getD (j : ℕ) 0 = d.getD ((sigma j : Fin fd.nsamples) : ℕ) 0 ∧
      (modified_band_depth fd).map Prod.fst = Except.ok md ∧
      (modified_band_depth (permuteSamples fd sigma)).map Prod.fst
        = Except.ok md' ∧
      md'.getD (j : ℕ) 0 = md.getD ((sigma j : Fin fd.nsamples) : ℕ) 0 := by
  have himg' : (permuteSamples fd sigma).ndim_image = 1 := himg
  have hok : _rank_samples fd = Except.ok (rankMatrix fd.scalarMatrix) := by
    simp [_rank_samples, himg]
  have hok' : _rank_samples (permuteSamples fd sigma)
      = Except.ok (rankMatrix (permuteSamples fd sigma).scalarMatrix) := by
    simp [_rank_samples, himg']
  have hn' : (permuteSamples fd sigma).nsamples = fd.nsamples :=
    permuteSamples_nsamples fd sigma
  have hsp : (permuteSamples fd sigma).sample_points = fd.sample_points := rfl
  have hmlen : (rankMatrix fd.scalarMatrix).length = fd.nsamples := by
    rw [rankMatrix_length, scalarMatrix_length]
  have hm'len : (rankMatrix (permuteSamples fd sigma).scalarMatrix).length
      = fd.nsamples := by
    rw [rankMatrix_length, scalarMatrix_length, hn']
  refine ⟨bandFromRanks fd.nsamples (rankMatrix fd.scalarMatrix),
    bandFromRanks (permuteSamples fd sigma).nsamples
      (rankMatrix (permuteSamples fd sigma).scalarMatrix),
    (mbdFromRanks fd.nsamples ((fd.sample_points.map List.length).prod)
      (rankMatrix fd.scalarMatrix)).1,
    (mbdFromRanks (permuteSamples fd sigma).nsamples
      (((permuteSamples fd sigma).sample_points.map List.length).prod)
      (rankMatrix (permuteSamples fd sigma).scalarMatrix)).1,
    by rw [band_depth]; simp only [hok, bind, Except.bind, pure, Except.pure],
    by rw [band_depth]; simp only [hok', bind, Except.bind, pure, Except.pure],
    ?_,
    by rw [modified_band_depth]; simp only [hok, bind, Except.bind, pure,
      Except.pure, Except.map],
    by rw [modified_band_depth]; simp only [hok', bind, Except.bind, pure,
      Except.pure, Except.map],
    ?_⟩
  · rw [hn', bandFromRanks_getD _ _ _ j.isLt,
      bandFromRanks_getD _ _ _ (sigma j).isLt,
      permute_rank_rows fd hwf (by omega) sigma j]
  · rw [hn', hsp, mbdFromRanks_fst_getD _ _ _ _ (by rw [hm'len]; exact j.isLt),
      mbdFromRanks_fst_getD _ _ _ _ (by rw [hmlen]; exact (sigma j).isLt),
      permute_rank_rows fd hwf (by omega) sigma j]


/-- C8 witness: swapping the first two reference curves moves entry 1 of
each depth sequence to entry 0. -/
theorem C8_permutation_equivariance_witness :
    ∃ d d' md md',
      band_depth fdRef = Except.ok d ∧
      band_depth (permuteSamples fdRef sigmaRef) = Except.ok d' ∧
      d'.getD 0 0 = d.getD 1 0 ∧
      (modified_band_depth fdRef).map Prod.fst = Except.ok md ∧
      (modified_band_depth (permuteSamples fdRef sigmaRef)).map Prod.fst
        = Except.ok md' ∧
      md'.getD 0 0 = md.getD 1 0 :=
  C8_permutation_equivariance fdRef ⟨by decide, by decide⟩ rfl (by decide)
    sigmaRef ⟨0, by decide⟩


lemma two_mul_bound (k a b : ℕ) (hab : a + b ≤ k + 1) :
    2*(a*b) + 2*(k+1) ≤ (k+2)*(k+1) := by
  have ha2 : a ≤ a*a := by
    cases a with
    | zero => simp
    | succ m => exact Nat.le_mul_of_pos_left _ (Nat.succ_pos m)
  have hb2 : b ≤ b*b := by
    cases b with
    | zero => simp
    | succ m => exact Nat.le_mul_of_pos_left _ (Nat.succ_pos m)
  have h3 : 2*(a*b) + (a+b) ≤ (a+b)*(a+b) := by
    have h := Nat.add_le_add ha2 hb2
    calc 2*(a*b) + (a+b) ≤ 2*(a*b) + (a*a + b*b) := by omega
      _ = (a+b)*(a+b) := by ring
  have h4 : (a+b)*(a+b) ≤ (a+b)*(k+1) := Nat.mul_le_mul_left _ hab
  have h5 : 2*(a*b) + (a+b) ≤ (a+b)*k + (a+b) := by
    have := le_trans h3 h4
    rw [Nat.mul_succ] at this
    exact this
  have h6 : 2*(a*b) ≤ (a+b)*k := by omega
  have h7 : (a+b)*k ≤ (k+1)*k := Nat.mul_le_mul_right _ hab
  calc 2*(a*b) + 2*(k+1) ≤ (k+1)*k + 2*(k+1) := by omega
    _ = (k+2)*(k+1) := by ring

lemma rank_row_facts (fd : FDataGrid) (k : ℕ)
    (hk : k < fd.nsamples) :
    ∀ r ∈ (rankMatrix fd.scalarMatrix).getD k [], 1 ≤ r ∧ r ≤ fd.nsamples := by
  have hk2 : k < fd.scalarMatrix.length := by rw [scalarMatrix_length]; exact hk
  rw [rankMatrix_getD _ k hk2]
  intro r hr
  obtain ⟨t, ht, hrt⟩ := List.mem_map.mp hr
  constructor
  · have hmem : (fd.scalarMatrix.getD k []).getD t 0 ∈ column fd.scalarMatrix t := by
      rw [← column_getD fd.scalarMatrix t k,
        List.getD_eq_getElem _ _ (by rw [column_length]; exact hk2)]
      exact List.getElem_mem _
    have hpos : 0 < (column fd.scalarMatrix t).countP
        (fun x => decide (x ≤ (fd.scalarMatrix.getD k []).getD t 0)) :=
      List.countP_pos_iff.mpr ⟨_, hmem, by simp⟩
    omega
  · rw [← hrt]
    calc (column fd.scalarMatrix t).countP _
        ≤ (column fd.scalarMatrix t).length := List.countP_le_length _
      _ = fd.nsamples := by rw [column_length, scalarMatrix_length]

lemma rank_row_length (fd : FDataGrid) (k : ℕ) (hk : k < fd.nsamples) :
    ((rankMatrix fd.scalarMatrix).getD k []).length = npoints fd.scalarMatrix := by
  have hk2 : k < fd.scalarMatrix.length := by rw [scalarMatrix_length]; exact hk
  rw [rankMatrix_getD _ k hk2, List.length_map, List.length_range]

lemma nat_min_eq_or : ∀ a b : ℕ, min a b = a ∨ min a b = b := fun a b =>
  min_choice a b

lemma nat_max_eq_or : ∀ a b : ℕ, max a b = a ∨ max a b = b := fun a b =>
  max_choice a b

/-- Range bound for a band-depth entry computed from a nonempty rank row
whose entries lie in [1, n]. -/
lemma band_entry_range (n : ℕ) (hn : 2 ≤ n) (row : List ℕ)
    (hne : row ≠ []) (hb : ∀ r ∈ row, 1 ≤ r ∧ r ≤ n) :
    0 ≤ ((((row.min?.getD 0 : ℕ) : ℚ) - 1)
          * ((n : ℚ) - ((row.max?.getD 0 : ℕ) : ℚ)) + (n : ℚ) - 1)
        / ((n : ℚ) * ((n : ℚ) - 1) / 2) ∧
    ((((row.min?.getD 0 : ℕ) : ℚ) - 1)
          * ((n : ℚ) - ((row.max?.getD 0 : ℕ) : ℚ)) + (n : ℚ) - 1)
        / ((n : ℚ) * ((n : ℚ) - 1) / 2) ≤ 1 := by
  obtain ⟨x, xs, rfl⟩ := List.exists_cons_of_ne_nil hne
  obtain ⟨mn, hmn⟩ : ∃ mn, (x :: xs).min? = some mn := ⟨_, List.min?_cons⟩
  obtain ⟨mx, hmx⟩ : ∃ mx, (x :: xs).max? = some mx := ⟨_, List.max?_cons⟩
  have hmnmem : mn ∈ x :: xs := List.min?_mem nat_min_eq_or hmn
  have hmxmem : mx ∈ x :: xs := List.max?_mem nat_max_eq_or hmx
  have hmnle : ∀ b ∈ x :: xs, mn ≤ b :=
    (List.le_min?_iff (fun _ _ _ => le_min_iff) hmn).mp le_rfl
  have hmxge : ∀ b ∈ x :: xs, b ≤ mx :=
    (List.max?_le_iff (fun _ _ _ => max_le_iff) hmx).mp le_rfl
  have h1 : 1 ≤ mn := (hb mn hmnmem).1
  have h2 : mx ≤ n := (hb mx hmxmem).2
  have h3 : mn ≤ mx := hmnle mx hmxmem
  rw [hmn, hmx]
  simp only [Option.getD_some]
  have hden : (0:ℚ) < (n : ℚ) * ((n : ℚ) - 1) / 2 := by
    have hn1 : (1:ℚ) < (n:ℚ) := by exact_mod_cast hn
    have : (0:ℚ) < (n:ℚ) := by linarith
    have : (0:ℚ) < (n:ℚ) - 1 := by linarith
    positivity
  have hmnQ : (1:ℚ) ≤ (mn:ℚ) := by exact_mod_cast h1
  have hmxQ : ((mx:ℚ)) ≤ (n:ℚ) := by exact_mod_cast h2
  constructor
  · apply div_nonneg _ (le_of_lt hden)
    have hnn : (1:ℚ) ≤ (n:ℚ) := by
      have : (1:ℚ) < (n:ℚ) := by exact_mod_cast hn
      linarith
    nlinarith
  · rw [div_le_one hden]
    -- discrete combinatorial bound, via naturals
    obtain ⟨k, rfl⟩ : ∃ k, n = k + 2 := ⟨n - 2, by omega⟩
    have hab : (mn - 1) + ((k + 2) - mx) ≤ k + 1 := by omega
    have hnat := two_mul_bound k (mn - 1) ((k + 2) - mx) hab
    have hcast : ((mn:ℚ) - 1) * (((k:ℚ) + 2) - (mx:ℚ)) + ((k:ℚ) + 2) - 1
        ≤ ((k:ℚ) + 2) * (((k:ℚ) + 2) - 1) / 2 := by
      have e1 : ((mn - 1 : ℕ) : ℚ) = (mn:ℚ) - 1 := by
        push_cast [h1]
        ring
      have e2 : (((k + 2) - mx : ℕ) : ℚ) = ((k:ℚ) + 2) - (mx:ℚ) := by
        push_cast [h2]
        ring
      have := hnat
      have hQ : 2*(((mn - 1 : ℕ) : ℚ)*(((k + 2) - mx : ℕ) : ℚ)) + 2*((k:ℚ)+1)
          ≤ ((k:ℚ)+2)*((k:ℚ)+1) := by exact_mod_cast this
      rw [e1, e2] at hQ
      linarith
    push_cast
    push_cast at hcast
    linarith


lemma band_range_part (fd : FDataGrid) (hwf : fd.WF) (himg : fd.ndim_image = 1)
    (hn : 2 ≤ fd.nsamples) (hP : 1 ≤ (fd.sample_points.map List.length).prod) :
    ∀ l, band_depth fd = Except.ok l → ∀ x ∈ l, 0 ≤ x ∧ x ≤ 1 := by
  intro l hl x hx
  have hok : _rank_samples fd = Except.ok (rankMatrix fd.scalarMatrix) := by
    simp [_rank_samples, himg]
  have hl2 : l = bandFromRanks fd.nsamples (rankMatrix fd.scalarMatrix) := by
    rw [band_depth] at hl
    simp only [hok, bind, Except.bind, pure, Except.pure] at hl
    exact (Except.ok.inj hl).symm
  subst hl2
  obtain ⟨idx, hidx, hval⟩ := List.mem_iff_getElem.mp hx
  have hidxn : idx < fd.nsamples := by
    simpa [bandFromRanks] using hidx
  have hxval : x = (bandFromRanks fd.nsamples (rankMatrix fd.scalarMatrix)).getD idx 0 := by
    rw [List.getD_eq_getElem _ _ hidx, hval]
  rw [hxval, bandFromRanks_getD _ _ _ hidxn]
  have hrowlen : ((rankMatrix fd.scalarMatrix).getD idx []).length
      = npoints fd.scalarMatrix := rank_row_length fd idx hidxn
  have hnp := npoints_eq_prod fd hwf (by omega)
  have hne : (rankMatrix fd.scalarMatrix).getD idx [] ≠ [] := by
    apply List.ne_nil_of_length_pos
    rw [hrowlen, hnp]
    omega
  exact band_entry_range fd.nsamples hn _ hne (rank_row_facts fd idx hidxn)


lemma quad_bound (n : ℕ) (hn : 2 ≤ n) (r : ℕ) (h1 : 1 ≤ r) (h2 : r ≤ n) :
    0 ≤ ((n:ℚ) - (r:ℚ)) * ((r:ℚ) - 1) ∧
    ((n:ℚ) - (r:ℚ)) * ((r:ℚ) - 1) ≤ ((n:ℚ) - 1) * ((n:ℚ) - 2) / 2 := by
  have h1Q : (1:ℚ) ≤ (r:ℚ) := by exact_mod_cast h1
  have h2Q : ((r:ℚ)) ≤ (n:ℚ) := by exact_mod_cast h2
  constructor
  · nlinarith
  · obtain ⟨k, rfl⟩ : ∃ k, n = k + 2 := ⟨n - 2, by omega⟩
    have hnat := two_mul_bound k ((k + 2) - r) (r - 1) (by omega)
    have hQ : 2*((((k + 2) - r : ℕ) : ℚ) * ((r - 1 : ℕ) : ℚ)) + 2*((k:ℚ)+1)
        ≤ ((k:ℚ)+2)*((k:ℚ)+1) := by exact_mod_cast hnat
    have e1 : (((k + 2) - r : ℕ) : ℚ) = ((k:ℚ) + 2) - (r:ℚ) := by
      push_cast [h2]
      ring
    have e2 : ((r - 1 : ℕ) : ℚ) = (r:ℚ) - 1 := by
      push_cast [h1]
      ring
    rw [e1, e2] at hQ
    push_cast
    linarith

lemma mbd_entry_range (n P : ℕ) (hn : 2 ≤ n) (hP : 1 ≤ P) (row : List ℕ)
    (hlen : row.length = P) (hb : ∀ r ∈ row, 1 ≤ r ∧ r ≤ n) :
    0 ≤ ((row.map (fun (r : ℕ) => ((n:ℚ) - (r:ℚ)) * ((r:ℚ) - 1))).sum / (P:ℚ)
          + (n:ℚ) - 1) / ((n:ℚ) * ((n:ℚ) - 1) / 2) ∧
    ((row.map (fun (r : ℕ) => ((n:ℚ) - (r:ℚ)) * ((r:ℚ) - 1))).sum / (P:ℚ)
          + (n:ℚ) - 1) / ((n:ℚ) * ((n:ℚ) - 1) / 2) ≤ 1 := by
  have hnn : (1:ℚ) < (n:ℚ) := by exact_mod_cast hn
  have hden : (0:ℚ) < (n : ℚ) * ((n : ℚ) - 1) / 2 := by
    have h0 : (0:ℚ) < (n:ℚ) := by linarith
    have h1 : (0:ℚ) < (n:ℚ) - 1 := by linarith
    positivity
  have hPQ : (0:ℚ) < (P:ℚ) := by exact_mod_cast hP
  have hsum0 : 0 ≤ (row.map (fun (r : ℕ) => ((n:ℚ) - (r:ℚ)) * ((r:ℚ) - 1))).sum := by
    apply List.sum_nonneg
    intro x hxm
    obtain ⟨r, hrm, hrx⟩ := List.mem_map.mp hxm
    rw [← hrx]
    exact (quad_bound n hn r (hb r hrm).1 (hb r hrm).2).1
  have hsumB : (row.map (fun (r : ℕ) => ((n:ℚ) - (r:ℚ)) * ((r:ℚ) - 1))).sum
      ≤ (P:ℚ) * (((n:ℚ) - 1) * ((n:ℚ) - 2) / 2) := by
    have hB : ∀ x ∈ row.map (fun (r : ℕ) => ((n:ℚ) - (r:ℚ)) * ((r:ℚ) - 1)),
        x ≤ ((n:ℚ) - 1) * ((n:ℚ) - 2) / 2 := by
      intro x hxm
      obtain ⟨r, hrm, hrx⟩ := List.mem_map.mp hxm
      rw [← hrx]
      exact (quad_bound n hn r (hb r hrm).1 (hb r hrm).2).2
    have := List.sum_le_card_nsmul _ _ hB
    rw [List.length_map, hlen, nsmul_eq_mul] at this
    exact this
  constructor
  · apply div_nonneg _ (le_of_lt hden)
    have : 0 ≤ (row.map (fun (r : ℕ) => ((n:ℚ) - (r:ℚ)) * ((r:ℚ) - 1))).sum / (P:ℚ) :=
      div_nonneg hsum0 (le_of_lt hPQ)
    linarith
  · rw [div_le_one hden]
    have hdivB : (row.map (fun (r : ℕ) => ((n:ℚ) - (r:ℚ)) * ((r:ℚ) - 1))).sum / (P:ℚ)
        ≤ ((n:ℚ) - 1) * ((n:ℚ) - 2) / 2 := by
      rw [div_le_iff hPQ]
      calc (row.map (fun (r : ℕ) => ((n:ℚ) - (r:ℚ)) * ((r:ℚ) - 1))).sum
          ≤ (P:ℚ) * (((n:ℚ) - 1) * ((n:ℚ) - 2) / 2) := hsumB
        _ = ((n:ℚ) - 1) * ((n:ℚ) - 2) / 2 * (P:ℚ) := by ring
    linarith

lemma mbd_range_part (fd : FDataGrid) (hwf : fd.WF) (himg : fd.ndim_image = 1)
    (hn : 2 ≤ fd.nsamples) (hP : 1 ≤ (fd.sample_points.map List.length).prod) :
    ∀ dpw, modified_band_depth fd = Except.ok dpw → ∀ x ∈ dpw.1, 0 ≤ x ∧ x ≤ 1 := by
  intro dpw hl x hx
  have hok : _rank_samples fd = Except.ok (rankMatrix fd.scalarMatrix) := by
    simp [_rank_samples, himg]
  have hl2 : dpw = mbdFromRanks fd.nsamples ((fd.sample_points.map List.length).prod)
      (rankMatrix fd.scalarMatrix) := by
    rw [modified_band_depth] at hl
    simp only [hok, bind, Except.bind, pure, Except.pure] at hl
    exact (Except.ok.inj hl).symm
  subst hl2
  obtain ⟨idx, hidx, hval⟩ := List.mem_iff_getElem.mp hx
  have hMlen : (rankMatrix fd.scalarMatrix).length = fd.nsamples := by
    rw [rankMatrix_length, scalarMatrix_length]
  have hidxn : idx < (rankMatrix fd.scalarMatrix).length := by
    have : idx < fd.nsamples := by
      simpa [mbdFromRanks_fst, hMlen] using hidx
    rw [hMlen]
    exact this
  have hxval : x = (mbdFromRanks fd.nsamples ((fd.sample_points.map List.length).prod)
      (rankMatrix fd.scalarMatrix)).1.getD idx 0 := by
    rw [List.getD_eq_getElem _ _ hidx, hval]
  rw [hxval, mbdFromRanks_fst_getD _ _ _ _ hidxn]
  have hrowlen : ((rankMatrix fd.scalarMatrix).getD idx []).length
      = (fd.sample_points.map List.length).prod := by
    rw [rank_row_length fd idx (by rw [← hMlen]; exact hidxn),
      npoints_eq_prod fd hwf (by omega)]
  exact mbd_entry_range fd.nsamples _ hn hP _ hrowlen
    (rank_row_facts fd idx (by rw [← hMlen]; exact hidxn))


lemma ap_getD (N : ℕ) (p0 h : ℚ) (k : ℕ) (hk : k < N) :
    ((List.range N).map (fun (j : ℕ) => p0 + (j:ℚ)*h)).getD k 0 = p0 + (k:ℚ)*h := by
  rw [List.getD_eq_getElem _ _ (by simpa using hk), List.getElem_map,
    List.getElem_range]

lemma y_getD_bounds (y : List ℚ) (lo hi : ℚ)
    (hb : ∀ v ∈ y, lo ≤ v ∧ v ≤ hi) (k : ℕ) (hk : k < y.length) :
    lo ≤ y.getD k 0 ∧ y.getD k 0 ≤ hi := by
  rw [List.getD_eq_getElem _ _ hk]
  exact hb _ (List.getElem_mem hk)

lemma simpsTerm_uniform (y : List ℚ) (N : ℕ) (p0 h lo hi : ℚ) (hh : 0 < h)
    (hy : y.length = N) (hb : ∀ v ∈ y, lo ≤ v ∧ v ≤ hi)
    (i : ℕ) (hi2 : i + 2 ≤ N - 1) (hN : 2 ≤ N) :
    2*h*lo ≤ simpsTerm y ((List.range N).map (fun (j : ℕ) => p0 + (j:ℚ)*h)) i ∧
    simpsTerm y ((List.range N).map (fun (j : ℕ) => p0 + (j:ℚ)*h)) i ≤ 2*h*hi := by
  have hne : h ≠ 0 := ne_of_gt hh
  have hterm : simpsTerm y ((List.range N).map (fun (j : ℕ) => p0 + (j:ℚ)*h)) i
      = h/3 * (y.getD i 0 + 4*(y.getD (i+1) 0) + y.getD (i+2) 0) := by
    rw [simpsTerm, ap_getD N p0 h i (by omega), ap_getD N p0 h (i+1) (by omega),
      ap_getD N p0 h (i+2) (by omega)]
    have e1 : p0 + ((i+1:ℕ):ℚ)*h - (p0 + ((i:ℕ):ℚ)*h) = h := by
      push_cast
      ring
    have e2 : p0 + ((i+2:ℕ):ℚ)*h - (p0 + ((i+1:ℕ):ℚ)*h) = h := by
      push_cast
      ring
    rw [e1, e2]
    field_simp
    ring
  rw [hterm]
  have h0 := y_getD_bounds y lo hi hb i (by omega)
  have h1 := y_getD_bounds y lo hi hb (i+1) (by omega)
  have h2 := y_getD_bounds y lo hi hb (i+2) (by omega)
  constructor
  · nlinarith [h0.1, h1.1, h2.1]
  · nlinarith [h0.2, h1.2, h2.2]

lemma basicSimps_zero (y x : List ℚ) (s : ℕ) : basicSimps y x s 0 = 0 := by
  simp [basicSimps]

lemma basicSimps_succ (y x : List ℚ) (s q : ℕ) :
    basicSimps y x s (q+1) = basicSimps y x s q + simpsTerm y x (s + 2*q) := by
  rw [basicSimps, List.range_succ, List.map_append, List.sum_append]
  simp [basicSimps]

lemma basicSimps_bounds (y : List ℚ) (N : ℕ) (p0 h lo hi : ℚ) (hh : 0 < h)
    (hy : y.length = N) (hb : ∀ v ∈ y, lo ≤ v ∧ v ≤ hi) (hN : 2 ≤ N) (s : ℕ) :
    ∀ q : ℕ, s + 2*q ≤ N - 1 →
      (q:ℚ)*(2*h)*lo ≤ basicSimps y ((List.range N).map (fun (j : ℕ) => p0 + (j:ℚ)*h)) s q ∧
      basicSimps y ((List.range N).map (fun (j : ℕ) => p0 + (j:ℚ)*h)) s q ≤ (q:ℚ)*(2*h)*hi := by
  intro q
  induction q with
  | zero =>
    intro hq
    rw [basicSimps_zero]
    constructor <;> simp
  | succ m ih =>
    intro hq
    have hm := ih (by omega)
    have ht := simpsTerm_uniform y N p0 h lo hi hh hy hb (s + 2*m) (by omega) hN
    rw [basicSimps_succ]
    push_cast
    constructor
    · nlinarith [hm.1, ht.1]
    · nlinarith [hm.2, ht.2]

lemma simps_uniform (y : List ℚ) (N : ℕ) (hN : 2 ≤ N) (p0 h lo hi : ℚ)
    (hh : 0 < h) (hy : y.length = N) (hb : ∀ v ∈ y, lo ≤ v ∧ v ≤ hi) :
    ((N:ℚ)-1)*h*lo ≤ simps y ((List.range N).map (fun (j : ℕ) => p0 + (j:ℚ)*h)) ∧
    simps y ((List.range N).map (fun (j : ℕ) => p0 + (j:ℚ)*h)) ≤ ((N:ℚ)-1)*h*hi := by
  rw [simps, hy]
  rcases Nat.even_or_odd N with he | ho
  · have hmod : N % 2 = 0 := Nat.even_iff.mp he
    rw [if_pos hmod]
    have hq : 2*((N-2)/2) = N - 2 := by omega
    have hb0 := basicSimps_bounds y N p0 h lo hi hh hy hb hN 0 ((N-2)/2) (by omega)
    have hb1 := basicSimps_bounds y N p0 h lo hi hh hy hb hN 1 ((N-2)/2) (by omega)
    have hqQ : (((N-2)/2 : ℕ):ℚ)*2 = (N:ℚ) - 2 := by
      have h28 : (((2*((N-2)/2) : ℕ)):ℚ) = (((N - 2:ℕ)):ℚ) := by rw [hq]
      rw [Nat.cast_mul, Nat.cast_ofNat, Nat.cast_sub hN] at h28
      push_cast at h28
      linarith
    have hx1 : ((List.range N).map (fun (j : ℕ) => p0 + (j:ℚ)*h)).getD (N-1) 0
        - ((List.range N).map (fun (j : ℕ) => p0 + (j:ℚ)*h)).getD (N-2) 0 = h := by
      rw [ap_getD N p0 h (N-1) (by omega), ap_getD N p0 h (N-2) (by omega)]
      have : ((N-1:ℕ):ℚ) = ((N-2:ℕ):ℚ) + 1 := by
        have h9 : (N-1) = (N-2) + 1 := by omega
        rw [h9]
        push_cast
        ring
      rw [this]
      ring
    have hx0 : ((List.range N).map (fun (j : ℕ) => p0 + (j:ℚ)*h)).getD 1 0
        - ((List.range N).map (fun (j : ℕ) => p0 + (j:ℚ)*h)).getD 0 0 = h := by
      rw [ap_getD N p0 h 1 (by omega), ap_getD N p0 h 0 (by omega)]
      push_cast
      ring
    have hyN1 := y_getD_bounds y lo hi hb (N-1) (by omega)
    have hyN2 := y_getD_bounds y lo hi hb (N-2) (by omega)
    have hy1 := y_getD_bounds y lo hi hb 1 (by omega)
    have hy0 := y_getD_bounds y lo hi hb 0 (by omega)
    rw [hx1, hx0]
    dsimp only
    have elo : (((N-2)/2 : ℕ):ℚ)*(2*h)*lo = ((N:ℚ)-2)*(h*lo) := by
      calc (((N-2)/2 : ℕ):ℚ)*(2*h)*lo = ((((N-2)/2 : ℕ):ℚ)*2)*(h*lo) := by ring
        _ = ((N:ℚ)-2)*(h*lo) := by rw [hqQ]
    have ehi : (((N-2)/2 : ℕ):ℚ)*(2*h)*hi = ((N:ℚ)-2)*(h*hi) := by
      calc (((N-2)/2 : ℕ):ℚ)*(2*h)*hi = ((((N-2)/2 : ℕ):ℚ)*2)*(h*hi) := by ring
        _ = ((N:ℚ)-2)*(h*hi) := by rw [hqQ]
    have l1 : h*lo ≤ h*(y.getD (N-1) 0) := mul_le_mul_of_nonneg_left hyN1.1 hh.le
    have l2 : h*lo ≤ h*(y.getD (N-2) 0) := mul_le_mul_of_nonneg_left hyN2.1 hh.le
    have l3 : h*lo ≤ h*(y.getD 1 0) := mul_le_mul_of_nonneg_left hy1.1 hh.le
    have l4 : h*lo ≤ h*(y.getD 0 0) := mul_le_mul_of_nonneg_left hy0.1 hh.le
    have u1 : h*(y.getD (N-1) 0) ≤ h*hi := mul_le_mul_of_nonneg_left hyN1.2 hh.le
    have u2 : h*(y.getD (N-2) 0) ≤ h*hi := mul_le_mul_of_nonneg_left hyN2.2 hh.le
    have u3 : h*(y.getD 1 0) ≤ h*hi := mul_le_mul_of_nonneg_left hy1.2 hh.le
    have u4 : h*(y.getD 0 0) ≤ h*hi := mul_le_mul_of_nonneg_left hy0.2 hh.le
    have hA := hb0.1
    have hB := hb1.1
    have hA2 := hb0.2
    have hB2 := hb1.2
    rw [elo] at hA hB
    rw [ehi] at hA2 hB2
    constructor
    · have expand : ((N:ℚ)-1)*h*lo = ((N:ℚ)-2)*(h*lo) + h*lo := by ring
      rw [expand]
      have hv : h * (y.getD (N - 1) 0 + y.getD (N - 2) 0) / 2
            + h * (y.getD 1 0 + y.getD 0 0) / 2
          ≥ 2*(h*lo) := by
        have e3 : h * (y.getD (N - 1) 0 + y.getD (N - 2) 0)
            = h*(y.getD (N-1) 0) + h*(y.getD (N-2) 0) := by ring
        have e4 : h * (y.getD 1 0 + y.getD 0 0)
            = h*(y.getD 1 0) + h*(y.getD 0 0) := by ring
        rw [e3, e4]
        linarith
      linarith
    · have expand : ((N:ℚ)-1)*h*hi = ((N:ℚ)-2)*(h*hi) + h*hi := by ring
      rw [expand]
      have hv : h * (y.getD (N - 1) 0 + y.getD (N - 2) 0) / 2
            + h * (y.getD 1 0 + y.getD 0 0) / 2
          ≤ 2*(h*hi) := by
        have e3 : h * (y.getD (N - 1) 0 + y.getD (N - 2) 0)
            = h*(y.getD (N-1) 0) + h*(y.getD (N-2) 0) := by ring
        have e4 : h * (y.getD 1 0 + y.getD 0 0)
            = h*(y.getD 1 0) + h*(y.getD 0 0) := by ring
        rw [e3, e4]
        linarith
      linarith
  · have hmod : N % 2 ≠ 0 := by
      have := Nat.odd_iff.mp ho
      omega
    rw [if_neg hmod]
    have hq : 2*((N-1)/2) = N - 1 := by
      have := Nat.odd_iff.mp ho
      omega
    have hb0 := basicSimps_bounds y N p0 h lo hi hh hy hb hN 0 ((N-1)/2) (by omega)
    have hqQ : (((N-1)/2 : ℕ):ℚ)*2 = (N:ℚ) - 1 := by
      have h28 : (((2*((N-1)/2) : ℕ)):ℚ) = (((N - 1:ℕ)):ℚ) := by rw [hq]
      rw [Nat.cast_mul, Nat.cast_ofNat, Nat.cast_sub (by omega : 1 ≤ N)] at h28
      push_cast at h28
      linarith
    have elo : (((N-1)/2 : ℕ):ℚ)*(2*h)*lo = ((N:ℚ)-1)*(h*lo) := by
      calc (((N-1)/2 : ℕ):ℚ)*(2*h)*lo = ((((N-1)/2 : ℕ):ℚ)*2)*(h*lo) := by ring
        _ = ((N:ℚ)-1)*(h*lo) := by rw [hqQ]
    have ehi : (((N-1)/2 : ℕ):ℚ)*(2*h)*hi = ((N:ℚ)-1)*(h*hi) := by
      calc (((N-1)/2 : ℕ):ℚ)*(2*h)*hi = ((((N-1)/2 : ℕ):ℚ)*2)*(h*hi) := by ring
        _ = ((N:ℚ)-1)*(h*hi) := by rw [hqQ]
    have hA := hb0.1
    have hA2 := hb0.2
    rw [elo] at hA
    rw [ehi] at hA2
    constructor
    · calc ((N:ℚ)-1)*h*lo = ((N:ℚ)-1)*(h*lo) := by ring
        _ ≤ _ := hA
    · calc basicSimps y (List.map (fun (j : ℕ) => p0 + (j:ℚ)*h) (List.range N)) 0 ((N-1)/2)
          ≤ ((N:ℚ)-1)*(h*hi) := hA2
        _ = ((N:ℚ)-1)*h*hi := by ring


lemma ap_min (N : ℕ) (hN : 1 ≤ N) (p0 h : ℚ) (hh : 0 < h) :
    ((List.range N).map (fun (j : ℕ) => p0 + (j:ℚ)*h)).min? = some p0 := by
  haveI : Std.Antisymm ((· : ℚ) ≤ ·) := ⟨fun h1 h2 => le_antisymm h1 h2⟩
  rw [List.min?_eq_some_iff (fun a => le_refl a) (fun a b => min_choice a b)
    (fun a b c => le_min_iff)]
  constructor
  · refine List.mem_map.mpr ⟨0, ?_, by push_cast; ring⟩
    rw [List.mem_range]
    omega
  · intro b hb
    obtain ⟨k, hk, hkb⟩ := List.mem_map.mp hb
    rw [← hkb]
    have : (0:ℚ) ≤ (k:ℚ)*h := mul_nonneg (by positivity) hh.le
    linarith

lemma ap_max (N : ℕ) (hN : 1 ≤ N) (p0 h : ℚ) (hh : 0 < h) :
    ((List.range N).map (fun (j : ℕ) => p0 + (j:ℚ)*h)).max?
      = some (p0 + ((N-1 : ℕ):ℚ)*h) := by
  haveI : Std.Antisymm ((· : ℚ) ≤ ·) := ⟨fun h1 h2 => le_antisymm h1 h2⟩
  rw [List.max?_eq_some_iff (fun a => le_refl a) (fun a b => max_choice a b)
    (fun a b c => max_le_iff)]
  constructor
  · refine List.mem_map.mpr ⟨N-1, ?_, rfl⟩
    rw [List.mem_range]
    omega
  · intro b hb
    obtain ⟨k, hk, hkb⟩ := List.mem_map.mp hb
    rw [← hkb]
    rw [List.mem_range] at hk
    have hkN : (k:ℚ) ≤ ((N-1 : ℕ):ℚ) := by
      exact_mod_cast Nat.le_sub_one_of_lt hk
    nlinarith


lemma fm_range_part (fd : FDataGrid) (himg : fd.ndim_image = 1)
    (hn : 2 ≤ fd.nsamples) (N : ℕ) (hN : 2 ≤ N) (p0 h : ℚ) (hh : 0 < h)
    (hsp : fd.sample_points = [(List.range N).map (fun (k : ℕ) => p0 + (k:ℚ)*h)]) :
    ∀ dpw, fraiman_muniz_depth fd = Except.ok dpw →
      ∀ x ∈ dpw.1, 1/2 ≤ x ∧ x ≤ 1 := by
  intro dpw hdp x hx
  have hdom : fd.ndim_domain = 1 := by
    rw [FDataGrid.ndim_domain, hsp]
    rfl
  have hguard : ¬(fd.ndim_domain > 1 ∨ fd.ndim_image > 1) := by
    rw [hdom, himg]
    omega
  rw [fraiman_muniz_depth, if_neg hguard] at hdp
  have hdp2 := Except.ok.inj hdp
  rw [← hdp2] at hx
  clear hdp hdp2
  have hpts : fd.sample_points.getD 0 []
      = (List.range N).map (fun (k : ℕ) => p0 + (k:ℚ)*h) := by
    rw [hsp]
    rfl
  obtain ⟨row, hrowmem, hxval⟩ := List.mem_map.mp hx
  obtain ⟨i, hirange, hrowval⟩ := List.mem_map.mp hrowmem
  rw [List.mem_range] at hirange
  -- the pointwise row is bounded in [1/2, 1]
  have hcollen : ∀ t, (column fd.scalarMatrix t).length = fd.nsamples := by
    intro t
    rw [column_length, scalarMatrix_length]
  have hFb : ∀ t, 0 ≤ (cdfList (column fd.scalarMatrix t)).getD i 0 ∧
      (cdfList (column fd.scalarMatrix t)).getD i 0 ≤ 1 := by
    intro t
    have hilen : i < (column fd.scalarMatrix t).length := by
      rw [hcollen t]
      exact hirange
    rw [cdfList_eq, List.getD_eq_getElem _ _ (by simpa using hilen),
      List.getElem_map]
    have hc1 : (column fd.scalarMatrix t).countP
        (fun x => decide (x ≤ (column fd.scalarMatrix t)[i])) ≤
        (column fd.scalarMatrix t).length := List.countP_le_length _
    have hlpos : (0:ℚ) < ((column fd.scalarMatrix t).length : ℚ) := by
      rw [hcollen t]
      exact_mod_cast Nat.lt_of_lt_of_le Nat.zero_lt_two hn
    constructor
    · positivity
    · rw [div_le_one hlpos]
      exact_mod_cast hc1
  have hrowb : ∀ v ∈ row, 1/2 ≤ v ∧ v ≤ 1 := by
    intro v hv
    rw [← hrowval] at hv
    obtain ⟨t, ht, hvt⟩ := List.mem_map.mp hv
    rw [← hvt]
    have hF := hFb t
    have habs : |1/2 - (cdfList (column fd.scalarMatrix t)).getD i 0| ≤ 1/2 := by
      rw [abs_le]
      constructor <;> linarith [hF.1, hF.2]
    have habs0 : 0 ≤ |1/2 - (cdfList (column fd.scalarMatrix t)).getD i 0| :=
      abs_nonneg _
    constructor <;> linarith
  have hrowlen : row.length = N := by
    rw [← hrowval, List.length_map, List.length_range, hpts, List.length_map,
      List.length_range]
  -- domain length
  have hL : ((fd.domain_range 0).2 - (fd.domain_range 0).1) = ((N:ℚ)-1)*h := by
    rw [FDataGrid.domain_range, hpts, ap_min N (by omega) p0 h hh,
      ap_max N (by omega) p0 h hh]
    simp only [Option.getD_some]
    rw [Nat.cast_sub (by omega : 1 ≤ N)]
    push_cast
    ring
  have hLpos : (0:ℚ) < ((N:ℚ)-1)*h := by
    have : (1:ℚ) ≤ (N:ℚ) - 1 := by
      have : (2:ℚ) ≤ (N:ℚ) := by exact_mod_cast hN
      linarith
    nlinarith
  have hsb := simps_uniform row N hN p0 h (1/2) 1 hh hrowlen hrowb
  rw [← hxval, hpts, hL]
  constructor
  · rw [le_div_iff hLpos]
    have := hsb.1
    linarith
  · rw [div_le_one hLpos]
    have := hsb.2
    linarith


/-- C5 amended: on every well-formed grid with at least two samples,
scalar image and at least one grid point, all band depth and modified
band depth values lie in [0,1] whatever the coordinate spacing; all
Fraiman-Muniz depth values lie in [0.5,1] when the single coordinate
axis is uniformly spaced (on non-uniform spacing they can leave that
interval). -/
theorem C5_depth_ranges :
    (∀ fd : FDataGrid, fd.WF → fd.ndim_image = 1 → 2 ≤ fd.nsamples →
        1 ≤ (fd.sample_points.map List.length).prod →
        ∀ l, band_depth fd = Except.ok l → ∀ x ∈ l, 0 ≤ x ∧ x ≤ 1) ∧
    (∀ fd : FDataGrid, fd.WF → fd.ndim_image = 1 → 2 ≤ fd.nsamples →
        1 ≤ (fd.sample_points.map List.length).prod →
        ∀ dpw, modified_band_depth fd = Except.ok dpw →
          ∀ x ∈ dpw.1, 0 ≤ x ∧ x ≤ 1) ∧
    (∀ (fd : FDataGrid) (N : ℕ) (p0 h : ℚ), fd.ndim_image = 1 →
        2 ≤ fd.nsamples → 2 ≤ N → 0 < h →
        fd.sample_points = [(List.range N).map (fun (k : ℕ) => p0 + (k:ℚ)*h)] →
        ∀ dpw, fraiman_muniz_depth fd = Except.ok dpw →
          ∀ x ∈ dpw.1, 1/2 ≤ x ∧ x ≤ 1) :=
  ⟨fun fd hwf himg hn hP => band_range_part fd hwf himg hn hP,
   fun fd hwf himg hn hP => mbd_range_part fd hwf himg hn hP,
   fun fd N p0 h himg hn hN hh hsp => fm_range_part fd himg hn N hN p0 h hh hsp⟩

section
attribute [local semireducible] Rat.mul Rat.inv Rat.add Rat.sub Rat.ofScientific

/-- C5 witness: the range bounds instantiated on the reference grid,
whose axis [0,2,4,6,8,10] is uniformly spaced with step 2. -/
theorem C5_depth_ranges_witness :
    (0 ≤ (5:ℚ)/6 ∧ (5:ℚ)/6 ≤ 1) ∧ (0 ≤ (13:ℚ)/18 ∧ (13:ℚ)/18 ≤ 1) ∧
    ((1:ℚ)/2 ≤ 37/40 ∧ (37:ℚ)/40 ≤ 1) := by
  refine ⟨C5_depth_ranges.1 fdRef ⟨by decide, by decide⟩ rfl (by decide)
      (by decide) [1/2, 5/6, 1/2, 1/2] (by decide) (5/6) (by decide),
    C5_depth_ranges.2.1 fdRef ⟨by decide, by decide⟩ rfl (by decide)
      (by decide) ([1/2, 5/6, 13/18, 2/3],
        [[1/2,1/2,1/2,1/2,1/2,1/2],[5/6,5/6,5/6,5/6,5/6,5/6],
         [1/2,1/2,5/6,5/6,5/6,5/6],[5/6,5/6,5/6,1/2,1/2,1/2]])
      (by decide) (13/18) (by decide),
    C5_depth_ranges.2.2 fdRef 6 0 2 rfl (by decide) (by decide) (by decide)
      (by decide) ([1/2, 3/4, 37/40, 7/8],
        [[1/2,1/2,1/2,1/2,1/2,1/2],[3/4,3/4,3/4,3/4,3/4,3/4],
         [3/4,3/4,1,1,1,1],[1,1,1,3/4,3/4,3/4]])
      (by decide) (37/40) (by decide)⟩

end

end SkfdaDepth
